import Mathlib

/-!
Verification of the core of `cloud-memstore-proxy`: the RESP wire codec,
the cluster-redirect rewriter, the cluster-topology parser and the proxy
manager state machine.  Byte streams are modelled as `List Char`, one
`Char` standing for one byte (all protocol framing bytes are ASCII).
-/

/-- Numeric value of an ASCII digit character (`c - '0'`). -/
def digitToNat (c : Char) : Nat := c.toNat - 48

/-- Whether `c` is an ASCII decimal digit. -/
def isDigitCh (c : Char) : Bool := decide (48 ≤ c.toNat) && decide (c.toNat ≤ 57)

/-- Decimal digit to character, as in strconv's formatting loop. -/
def digitChr (n : Nat) : Char :=
  match n with
  | 0 => '0' | 1 => '1' | 2 => '2' | 3 => '3' | 4 => '4'
  | 5 => '5' | 6 => '6' | 7 => '7' | 8 => '8' | _ => '9'

/-- Value of a big-endian digit string. -/
def digitsVal (s : List Char) : Nat := s.foldl (fun a c => 10 * a + digitToNat c) 0

/-- All characters are decimal digits. -/
def allDigits (s : List Char) : Bool := s.all isDigitCh

/-- Fueled digit-emission loop of `strconv.FormatInt` (base 10, non-negative part). -/
def natDigitsAux : Nat → Nat → List Char → List Char
  | 0, _, acc => acc
  | fuel+1, n, acc =>
    let acc' := digitChr (n % 10) :: acc
    if n < 10 then acc' else natDigitsAux fuel (n / 10) acc'

/-- Canonical base-10 rendering of a natural number (`strconv.Itoa` on `n ≥ 0`). -/
def formatNat (n : Nat) : List Char := natDigitsAux (n + 1) n []

/-- Source `strconv.FormatInt(i, 10)`. -/
def goFormatInt (i : Int) : List Char :=
  if i < 0 then '-' :: formatNat i.natAbs else formatNat i.toNat

def int64Max : Int := 2 ^ 63 - 1

/-- Digit run to `Nat`, failing on empty or non-digit input. -/
def goParseDec (s : List Char) : Option Nat :=
  if s = [] then none
  else if allDigits s then some (digitsVal s) else none

/-- Source `strconv.ParseInt(s, 10, 64)`: optional sign, decimal digits, 64-bit range check. -/
def goParseInt (s : List Char) : Option Int :=
  match s with
  | [] => none
  | c :: rest =>
    if c = '+' then
      match goParseDec rest with
      | none => none
      | some n => if (n : Int) ≤ int64Max then some (n : Int) else none
    else if c = '-' then
      match goParseDec rest with
      | none => none
      | some n => if (n : Int) ≤ 2 ^ 63 then some (-(n : Int)) else none
    else
      match goParseDec (c :: rest) with
      | none => none
      | some n => if (n : Int) ≤ int64Max then some (n : Int) else none

/-- Source `strconv.Atoi(s)`, a 64-bit `int` on the platforms at hand. -/
def goAtoi (s : List Char) : Option Int := goParseInt s

/-- The RESP type tag (`RESPType` in resp.go). -/
inductive RESPType where
  | simpleString
  | error
  | integer
  | bulkString
  | array
deriving DecidableEq

/-- Go struct `RESPValue{Type, Str, Int, Array, Null}`.  The recursive
`Array` field forces a single-constructor inductive rather than a
`structure`; the fields keep the source's meaning (`ty` = `Type`,
`str` = `Str`, `intv` = `Int`, `arr` = `Array`, `nullf` = `Null`). -/
inductive RESPValue : Type where
  | mk (ty : RESPType) (str : List Char) (intv : Int) (arr : List RESPValue) (nullf : Bool)

def RESPValue.ty : RESPValue → RESPType | .mk t _ _ _ _ => t
def RESPValue.str : RESPValue → List Char | .mk _ s _ _ _ => s
def RESPValue.intv : RESPValue → Int | .mk _ _ i _ _ => i
def RESPValue.arr : RESPValue → List RESPValue | .mk _ _ _ a _ => a
def RESPValue.nullf : RESPValue → Bool | .mk _ _ _ _ n => n

instance : Inhabited RESPValue := ⟨.mk .simpleString [] 0 [] false⟩

mutual
/-- Source `RESPValue.Serialize`: exact wire bytes, per the `switch v.Type` in resp.go. -/
def RESPValue.Serialize : RESPValue → List Char
  | .mk t s i a nl =>
    match t with
    | .simpleString => '+' :: (s ++ ['\r', '\n'])
    | .error => '-' :: (s ++ ['\r', '\n'])
    | .integer => ':' :: (goFormatInt i ++ ['\r', '\n'])
    | .bulkString =>
      if nl then ['$', '-', '1', '\r', '\n']
      else '$' :: (formatNat s.length ++ ['\r', '\n'] ++ s ++ ['\r', '\n'])
    | .array =>
      if nl then ['*', '-', '1', '\r', '\n']
      else '*' :: (formatNat a.length ++ ['\r', '\n'] ++ serializeList a)
/-- The `for _, elem := range v.Array { buf.Write(elem.Serialize()) }` loop. -/
def serializeList : List RESPValue → List Char
  | [] => []
  | v :: vs => v.Serialize ++ serializeList vs
end

example : (RESPValue.mk .simpleString "OK".toList 0 [] false).Serialize = "+OK\r\n".toList := by rfl
example : (RESPValue.mk .integer [] (-12) [] false).Serialize = ":-12\r\n".toList := by rfl

/-- Source `bufio.Reader.ReadString('\n')`: bytes up to and including the first
newline; `none` when the stream ends first. -/
def readStringLF : List Char → Option (List Char × List Char)
  | [] => none
  | c :: rest =>
    if c = '\n' then some ([c], rest)
    else
      match readStringLF rest with
      | none => none
      | some (line, rem) => some (c :: line, rem)

/-- Source `RESPReader.readLine`: a full line, rejecting lines whose byte before the
`'\n'` is not `'\r'`, returning the line without its terminator. -/
def readLine (s : List Char) : Option (List Char × List Char) :=
  match readStringLF s with
  | none => none
  | some (line, rem) =>
    if line.length < 2 then none
    else if line.getD (line.length - 2) ' ' ≠ '\r' then none
    else some (line.take (line.length - 2), rem)

/-- Source `RESPReader.readSimpleString`. -/
def readSimpleString (s : List Char) : Option (RESPValue × List Char) :=
  match readLine s with
  | none => none
  | some (line, rem) => some (.mk .simpleString line 0 [] false, rem)

/-- Source `RESPReader.readError`. -/
def readError (s : List Char) : Option (RESPValue × List Char) :=
  match readLine s with
  | none => none
  | some (line, rem) => some (.mk .error line 0 [] false, rem)

/-- Source `RESPReader.readInteger`. -/
def readInteger (s : List Char) : Option (RESPValue × List Char) :=
  match readLine s with
  | none => none
  | some (line, rem) =>
    match goParseInt line with
    | none => none
    | some num => some (.mk .integer [] num [] false, rem)

/-- Source `RESPReader.readBulkString`: length line, then (for non-negative length
`n`) exactly `n` payload bytes plus a mandatory `\r\n` whose mismatch is a
framing error; negative length is the null bulk string with no body. -/
def readBulkString (s : List Char) : Option (RESPValue × List Char) :=
  match readLine s with
  | none => none
  | some (line, rem) =>
    match goAtoi line with
    | none => none
    | some size =>
      if size < 0 then some (.mk .bulkString [] 0 [] true, rem)
      else
        let n := size.toNat
        let buf := rem.take (n + 2)
        if buf.length ≠ n + 2 then none          -- io.ReadFull hit end of stream
        else if buf.drop n ≠ ['\r', '\n'] then none  -- buf[size] != '\r' || buf[size+1] != '\n'
        else some (.mk .bulkString (buf.take n) 0 [] false, rem.drop (n + 2))

/-- The `for i := 0; i < count; i++ { ReadValue() }` loop of `readArray`,
abstracted over the value reader `rv` (the one-level-less-fuel parser). -/
def readManyGo (rv : List Char → Option (RESPValue × List Char)) :
    Nat → List Char → Option (List RESPValue × List Char)
  | 0, s => some ([], s)
  | n+1, s =>
    match rv s with
    | none => none
    | some (v, s') =>
      match readManyGo rv n s' with
      | none => none
      | some (vs, s'') => some (v :: vs, s'')

/-- Source `RESPReader.readArray`: count line, negative count is the null array,
otherwise `count` recursively-read values in order. -/
def readArrayGo (rv : List Char → Option (RESPValue × List Char)) (s : List Char) :
    Option (RESPValue × List Char) :=
  match readLine s with
  | none => none
  | some (line, rem) =>
    match goAtoi line with
    | none => none
    | some count =>
      if count < 0 then some (.mk .array [] 0 [] true, rem)
      else
        match readManyGo rv count.toNat rem with
        | none => none
        | some (vs, rem') => some (.mk .array [] 0 vs false, rem')

/-- One dispatch step of `RESPReader.ReadValue`: the leading type byte
selects the reader; an unknown byte is a framing error. -/
def readValueStep (rv : List Char → Option (RESPValue × List Char)) :
    List Char → Option (RESPValue × List Char)
  | [] => none
  | c :: rest =>
    if c = '+' then readSimpleString rest
    else if c = '-' then readError rest
    else if c = ':' then readInteger rest
    else if c = '$' then readBulkString rest
    else if c = '*' then readArrayGo rv rest
    else none

/-- Fueled `RESPReader.ReadValue`; the fuel only bounds array nesting depth,
which the Go code bounds by consuming at least one byte per recursion. -/
def readValue : Nat → List Char → Option (RESPValue × List Char)
  | 0, _ => none
  | fuel+1, s => readValueStep (readValue fuel) s

/-- Source `RESPReader.ReadValue` on a finite stream: `|s| + 1` fuel always exceeds
any nesting depth reachable while consuming bytes of `s`. -/
def ReadValue (s : List Char) : Option (RESPValue × List Char) :=
  readValue (s.length + 1) s

example : ReadValue "+OK\r\nrest".toList =
    some (.mk .simpleString "OK".toList 0 [] false, "rest".toList) := by rfl
example : ReadValue ":-42\r\n".toList = some (.mk .integer [] (-42) [] false, []) := by rfl
example : ReadValue "$6\r\nfoobar\r\n".toList =
    some (.mk .bulkString "foobar".toList 0 [] false, []) := by rfl
example : ReadValue "$-1\r\n".toList = some (.mk .bulkString [] 0 [] true, []) := by rfl
example : ReadValue "*2\r\n$3\r\nfoo\r\n$3\r\nbar\r\n".toList =
    some (.mk .array [] 0
      [.mk .bulkString "foo".toList 0 [] false, .mk .bulkString "bar".toList 0 [] false]
      false, []) := by rfl
example : ReadValue "$6\r\nfoobarXY".toList = none := by rfl
example : ReadValue "?x\r\n".toList = none := by rfl

/-- Source `strings.HasPrefix(s, pre)`. -/
def goHasPre : List Char → List Char → Bool
  | _, [] => true
  | [], _ :: _ => false
  | c :: s, p :: pre => c = p && goHasPre s pre

/-- Source `strings.Contains(s, sub)`. -/
def goContains : List Char → List Char → Bool
  | [], sub => decide (sub = [])
  | c :: rest, sub => goHasPre (c :: rest) sub || goContains rest sub

/-- Source `unicode.IsSpace` restricted to Latin-1, as used by `strings.Fields`
and `strings.TrimSpace`. -/
def goIsSpace (c : Char) : Bool :=
  c = ' ' || c = '\t' || c = '\n' || c = '\x0b' || c = '\x0c' || c = '\r' ||
  c.toNat = 133 || c.toNat = 160

/-- Source `strings.TrimSpace`. -/
def trimSpace (s : List Char) : List Char :=
  ((s.dropWhile goIsSpace).reverse.dropWhile goIsSpace).reverse

/-- Accumulator pass behind `goFields`. -/
def goFieldsAux (acc : List Char) (out : List (List Char)) : List Char → List (List Char)
  | [] => if acc = [] then out else out ++ [acc.reverse]
  | c :: rest =>
    if goIsSpace c then
      if acc = [] then goFieldsAux [] out rest
      else goFieldsAux [] (out ++ [acc.reverse]) rest
    else goFieldsAux (c :: acc) out rest

/-- Source `strings.Fields(s)`: the maximal runs of non-whitespace bytes. -/
def goFields (s : List Char) : List (List Char) := goFieldsAux [] [] s

/-- Source `strings.Split(s, sep)` for a one-byte separator (accumulator form). -/
def goSplitAux (sep : Char) (acc : List Char) : List Char → List (List Char)
  | [] => [acc.reverse]
  | c :: rest =>
    if c = sep then acc.reverse :: goSplitAux sep [] rest
    else goSplitAux sep (c :: acc) rest

def goSplit (sep : Char) (s : List Char) : List (List Char) := goSplitAux sep [] s

/-- Go map (string→string) modelled as an association list with unique keys. -/
def goLookup : List (List Char × List Char) → List Char → Option (List Char)
  | [], _ => none
  | (k, v) :: rest, key => if k = key then some v else goLookup rest key

/-- Go map assignment `m[k] = v` (replace or append). -/
def mapSet : List (List Char × List Char) → List Char → List Char →
    List (List Char × List Char)
  | [], k, v => [(k, v)]
  | (k', v') :: rest, k, v =>
    if k' = k then (k, v) :: rest else (k', v') :: mapSet rest k v

/-- Source `RESPValue.IsRedirectError`: an Error whose payload starts with
`"MOVED "` or `"ASK "`. -/
def RESPValue.IsRedirectError (v : RESPValue) : Bool :=
  if v.ty ≠ RESPType.error then false
  else goHasPre v.str "MOVED ".toList || goHasPre v.str "ASK ".toList

/-- Payload replacement (`v.Str = ...`), the one mutation path of resp.go. -/
def RESPValue.setStr : RESPValue → List Char → RESPValue
  | .mk t _ i a nl, s => .mk t s i a nl

/-- Source `RESPValue.RewriteRedirectError`: Go mutates `v.Str` in place and
returns a `bool`; modelled as returning the flag with the updated value. -/
def RESPValue.RewriteRedirectError (v : RESPValue)
    (nodeMap : List (List Char × List Char)) : Bool × RESPValue :=
  if ¬ v.IsRedirectError then (false, v)
  else
    match goFields v.str with
    | [redirectType, slot, targetAddr] =>
      match goLookup nodeMap targetAddr with
      | none => (false, v)
      | some localAddr =>
        (true, v.setStr (redirectType ++ ' ' :: slot ++ ' ' :: localAddr))
    | _ => (false, v)

example : (RESPValue.mk .error "MOVED 3999 10.128.0.5:6379".toList 0 [] false).IsRedirectError
    = true := by rfl
example : (RESPValue.mk .error "ERR something".toList 0 [] false).IsRedirectError
    = false := by rfl
example :
    (RESPValue.mk .error "MOVED 3999 10.128.0.5:6379".toList 0 [] false).RewriteRedirectError
      [("10.128.0.5:6379".toList, "127.0.0.1:6381".toList)]
    = (true, .mk .error "MOVED 3999 127.0.0.1:6381".toList 0 [] false) := by rfl

/-- Source `ClusterNode` of cluster.go. -/
structure ClusterNode where
  id : List Char
  address : List Char
  port : Int
  flags : List Char
  role : List Char
deriving DecidableEq

instance : Inhabited ClusterNode := ⟨⟨[], [], 0, [], []⟩⟩

/-- Truncation at the first occurrence of `sep`
(`if idx := strings.Index(s, sep); idx != -1 { s = s[:idx] }`). -/
def cutAt (sep : Char) (s : List Char) : List Char :=
  s.takeWhile (fun c => c ≠ sep)

/-- Source `fmt.Sscanf(s, "%d", &port)` with `port` left `0` on failure:
value of the optionally-signed leading digit run. -/
def sscanfIntD (s : List Char) : Int :=
  match s with
  | '-' :: rest =>
    let ds := rest.takeWhile isDigitCh
    if ds = [] then 0 else -(digitsVal ds : Int)
  | '+' :: rest =>
    let ds := rest.takeWhile isDigitCh
    if ds = [] then 0 else (digitsVal ds : Int)
  | _ =>
    let ds := s.takeWhile isDigitCh
    if ds = [] then 0 else (digitsVal ds : Int)

/-- The body of the `for _, line := range lines` loop of `parseClusterNodes`:
`none` for the lines the loop skips. -/
def parseNodeLine (line : List Char) : Option ClusterNode :=
  let l := trimSpace line
  if l = [] then none
  else
    let fields := goFields l
    if fields.length < 8 then none
    else
      let nodeID := fields.getD 0 []
      let addressField := fields.getD 1 []
      let flags := fields.getD 2 []
      let address := cutAt ',' (cutAt '@' addressField)
      let parts := goSplit ':' address
      let port := if parts.length = 2 then sscanfIntD (parts.getD 1 []) else 0
      let role := if goContains flags "master".toList then "master".toList else "slave".toList
      some ⟨nodeID, address, port, flags, role⟩

/-- Source `parseClusterNodes`: split the trimmed output on newlines and parse each
line, skipping blank or short (< 8 fields) lines.  The Go function's error
result is always `nil`. -/
def parseClusterNodes (output : List Char) : List ClusterNode :=
  (goSplit '\n' (trimSpace output)).filterMap parseNodeLine

/-- Source `FilterUniqueNodes` with the `seen` set made explicit. -/
def filterUniqueAux (currentAddress : List Char) (seen : List (List Char)) :
    List ClusterNode → List ClusterNode
  | [] => []
  | node :: rest =>
    if node.address = currentAddress then filterUniqueAux currentAddress seen rest
    else if goContains node.flags "myself".toList then filterUniqueAux currentAddress seen rest
    else if seen.contains node.address then filterUniqueAux currentAddress seen rest
    else node :: filterUniqueAux currentAddress (node.address :: seen) rest

/-- Source `FilterUniqueNodes(nodes, currentAddress)`: drops the current node, the
`myself`-flagged nodes and duplicate addresses, keeping first-seen order. -/
def FilterUniqueNodes (nodes : List ClusterNode) (currentAddress : List Char) :
    List ClusterNode :=
  filterUniqueAux currentAddress [] nodes

/-- Source `DiscoverClusterTopology`, from the reply bytes onward: an error reply
means "not a cluster instance", a non-bulk-string reply is unexpected,
otherwise the length-prefixed payload is parsed with `parseClusterNodes`.
The length line is read with `ReadString('\n')` and scanned with
`Sscanf("%d\r\n")` (modelled by its leading signed digit run). -/
def DiscoverClusterTopology (raw : List Char) : Option (List ClusterNode) :=
  match raw with
  | [] => none
  | c :: rest =>
    if c = '-' then none
    else if c ≠ '$' then none
    else
      match readStringLF rest with
      | none => none
      | some (lengthLine, rem) =>
        let ds := lengthLine.takeWhile isDigitCh
        if ds = [] then none
        else
          let length := digitsVal ds
          if rem.length < length then none
          else some (parseClusterNodes (rem.take length))

/-- Source `extractHost`: the part before the last `':'`, or the whole string. -/
def extractHost (s : List Char) : List Char :=
  let r := s.reverse.dropWhile (fun c => c ≠ ':')
  if r = [] then s else (r.drop 1).reverse

example :
    parseClusterNodes
      ("07c37dfeb235213a872192d90877d0cd55635b91 127.0.0.1:30004@31004 slave " ++
       "e7d1eecce10fd6bb5eb35b9f99a514335d9ba9ca 0 1426238317239 4 connected").toList
    = [⟨"07c37dfeb235213a872192d90877d0cd55635b91".toList, "127.0.0.1:30004".toList, 30004,
       "slave".toList, "slave".toList⟩] := by rfl
example : extractHost "127.0.0.1:30004".toList = "127.0.0.1".toList := by rfl

/-- The fields of the Go `Proxy` struct that the relay path reads.  The
`nodeMap` field of the Go struct aliases the manager's map (Go maps are
references), so it is not duplicated here: relay functions receive the
manager's map.  `isClusterMode` is a plain `bool` copied at construction. -/
structure ProxyM where
  localAddr : List Char
  remoteAddr : List Char
  isClusterMode : Bool
deriving DecidableEq

instance : Inhabited ProxyM := ⟨⟨[], [], false⟩⟩

/-- The `Manager` struct: the proxy list, the shared node-address map, the
cluster-mode flag, and the authentication configuration consulted by
`AddProxy` (`config.LocalAddr`, `authorizationMode`, `authPassword`,
whether `tokenSource` is initialized). -/
structure ManagerM where
  cfgLocalAddr : List Char
  proxies : List ProxyM
  nodeMap : List (List Char × List Char)
  isClusterMode : Bool
  authorizationMode : List Char
  authPassword : List Char
  hasTokenSource : Bool

/-- Source `NewManager`. -/
def newManager (cfgLocalAddr : List Char) : ManagerM :=
  { cfgLocalAddr := cfgLocalAddr
    proxies := []
    nodeMap := []
    isClusterMode := false
    authorizationMode := []
    authPassword := []
    hasTokenSource := false }

/-- Source `Manager.AddProxy`.  Interaction with the outside world is abstracted by
two oracles: `tokenOk` (does `auth.NewIAMTokenProvider` succeed, consulted
only when IAM auth is discovered, no password is set and no provider exists
yet) and `startOk` (does `proxy.Start`'s listener bind succeed).  The
returned flag is `true` when the Go method returns `nil`; on `false` the
manager is returned as the Go method left it (listener failure leaves the
token provider initialized but adds neither proxy nor map entry). -/
def addProxy (m : ManagerM) (host : List Char) (port : Int) (localPort : Nat)
    (tokenOk startOk : Bool) : ManagerM × Bool :=
  let needsToken := m.authorizationMode = "IAM_AUTH".toList ∧ m.authPassword = [] ∧
    ¬ m.hasTokenSource
  if needsToken ∧ ¬ tokenOk then (m, false)
  else
    let m0 := if needsToken then { m with hasTokenSource := true } else m
    let localAddr := m0.cfgLocalAddr ++ ':' :: formatNat localPort
    let remoteAddr := host ++ ':' :: goFormatInt port
    let p : ProxyM :=
      { localAddr := localAddr, remoteAddr := remoteAddr, isClusterMode := m0.isClusterMode }
    if startOk then
      ({ m0 with nodeMap := mapSet m0.nodeMap remoteAddr localAddr,
                 proxies := m0.proxies ++ [p] }, true)
    else (m0, false)

/-- The `for i, node := range newNodes` loop of `DiscoverAndAddClusterNodes`:
one `AddProxy` per peer at sequential ports, skipping per-peer failures.
`oks i` gives the two oracles for the `i`-th iteration. -/
def addLoop (m : ManagerM) (startPort : Nat) (oks : Nat → Bool × Bool) :
    List ClusterNode → Nat → Nat → ManagerM × Nat
  | [], _, added => (m, added)
  | node :: rest, i, added =>
    let (m', ok) := addProxy m (extractHost node.address) node.port (startPort + i)
      (oks i).1 (oks i).2
    if ok then addLoop m' startPort oks rest (i + 1) (added + 1)
    else addLoop m' startPort oks rest (i + 1) added

/-- Source `Manager.DiscoverAndAddClusterNodes` from the point where the dedicated
(TLS + auth) connection is established and has produced the raw
`CLUSTER NODES` reply `raw` (connection or auth failure would return an
error with the manager untouched; that branch carries no claim content).
The result is the new manager state together with `some addedCount` on
success and `none` on the discovery error paths. -/
def discoverAndAdd (m : ManagerM) (remoteAddr : List Char) (startPort : Nat)
    (raw : List Char) (oks : Nat → Bool × Bool) : ManagerM × Option Nat :=
  match DiscoverClusterTopology raw with
  | none => (m, none)
  | some nodes =>
    if nodes.length = 0 then (m, none)
    else
      let newNodes := FilterUniqueNodes nodes remoteAddr
      if newNodes.length = 0 then (m, some 0)
      else
        let m1 := { m with isClusterMode := true }
        let (m2, added) := addLoop m1 startPort oks newNodes 0 0
        (m2, some added)

/-- Reachable manager states: a fresh manager followed by any sequence of
configuration setters, `AddProxy` and `DiscoverAndAddClusterNodes` calls
(`Shutdown` mutates neither the proxy list nor the map). -/
inductive Reachable : ManagerM → Prop
  | new (cfgLocalAddr : List Char) : Reachable (newManager cfgLocalAddr)
  | setAuthPassword {m} (pw : List Char) : Reachable m →
      Reachable { m with authPassword := pw }
  | setAuthorizationMode {m} (mode : List Char) : Reachable m →
      Reachable { m with authorizationMode := mode }
  | addProxy {m} (host : List Char) (port : Int) (localPort : Nat)
      (tokenOk startOk : Bool) : Reachable m →
      Reachable (addProxy m host port localPort tokenOk startOk).1
  | discover {m} (remoteAddr : List Char) (startPort : Nat) (raw : List Char)
      (oks : Nat → Bool × Bool) : Reachable m →
      Reachable (discoverAndAdd m remoteAddr startPort raw oks).1

/-- The redirect check-and-rewrite done on each value by
`proxyServerResponses` (lines 522-529 of the pipeline source). -/
def processValue (nodeMap : List (List Char × List Char)) (v : RESPValue) : RESPValue :=
  if v.IsRedirectError then (v.RewriteRedirectError nodeMap).2 else v

/-- The read/rewrite/serialize loop of `proxyServerResponses`: reads RESP
values until the stream ends or a value fails to parse, forwarding each
one (rewritten if a redirect) to the client.  Fueled by the input length:
each `ReadValue` consumes at least one byte. -/
def proxyLoop (nodeMap : List (List Char × List Char)) :
    Nat → List Char → List Char
  | 0, _ => []
  | fuel+1, input =>
    match ReadValue input with
    | none => []
    | some (v, rest) => (processValue nodeMap v).Serialize ++ proxyLoop nodeMap fuel rest

/-- Source `Proxy.proxyServerResponses` as a function from the remote-side bytes to
the client-side bytes. -/
def proxyServerResponses (nodeMap : List (List Char × List Char))
    (input : List Char) : List Char :=
  proxyLoop nodeMap (input.length + 1) input

/-- The remote→client direction chosen by `Proxy.handleConnection`: the
RESP-aware `handleClusterConnection` path when `p.isClusterMode`, otherwise
the raw `io.Copy` of `handleSimpleConnection`.  `nodeMap` is the manager's
map, which `p.nodeMap` aliases. -/
def relayRemoteToClient (p : ProxyM) (nodeMap : List (List Char × List Char))
    (input : List Char) : List Char :=
  if p.isClusterMode then proxyServerResponses nodeMap input else input

/-- The success test applied to the single `AUTH` reply, identical in
`Proxy.authenticatePassword`, `Proxy.authenticateIAM` and the Manager's
`authenticate*OnConn` helpers:
`len(respStr) >= 5 && respStr[:5] == "+OK\r\n"`. -/
def authReplyAccepted (resp : List Char) : Bool :=
  decide (5 ≤ resp.length) && decide (resp.take 5 = "+OK\r\n".toList)

/-- The `AUTH` command framing `*2\r\n$4\r\nAUTH\r\n$<len>\r\n<credential>\r\n`
shared by the password and IAM flows. -/
def authCommand (credential : List Char) : List Char :=
  "*2\r\n$4\r\nAUTH\r\n$".toList ++ formatNat credential.length ++
    "\r\n".toList ++ credential ++ "\r\n".toList

example : authReplyAccepted "+OK\r\n".toList = true := by rfl
example : authReplyAccepted "+OK\r\nX".toList = true := by rfl
example : authReplyAccepted "-ERR x\r\n".toList = false := by rfl
example : authCommand "pw".toList = "*2\r\n$4\r\nAUTH\r\n$2\r\npw\r\n".toList := by rfl

mutual
/-- "Constructible by the grammar": exactly the shapes the parser can
produce.  Simple-string and error payloads contain no `'\n'` (readLine
stops at the first one), integers fit in a signed 64-bit range
(`ParseInt`), bulk lengths and array counts fit in a 64-bit `int`. -/
def WFV : RESPValue → Bool
  | .mk t s i a nl =>
    match t with
    | .simpleString => decide ('\n' ∉ s)
    | .error => decide ('\n' ∉ s)
    | .integer => decide (-(2 ^ 63) ≤ i) && decide (i ≤ int64Max)
    | .bulkString => nl || decide ((s.length : Int) ≤ int64Max)
    | .array => nl || (decide ((a.length : Int) ≤ int64Max) && WFL a)
def WFL : List RESPValue → Bool
  | [] => true
  | v :: vs => WFV v && WFL vs
end

mutual
/-- The value the parser rebuilds from `v.Serialize`: unused struct fields
go back to their zero values (null values lose any junk payload). -/
def canon : RESPValue → RESPValue
  | .mk t s i a nl =>
    match t with
    | .simpleString => .mk .simpleString s 0 [] false
    | .error => .mk .error s 0 [] false
    | .integer => .mk .integer [] i [] false
    | .bulkString =>
      if nl then .mk .bulkString [] 0 [] true else .mk .bulkString s 0 [] false
    | .array =>
      if nl then .mk .array [] 0 [] true else .mk .array [] 0 (canonList a) false
def canonList : List RESPValue → List RESPValue
  | [] => []
  | v :: vs => canon v :: canonList vs
end

mutual
/-- Array-nesting depth: the fuel `readValue` needs to parse the value. -/
def vdepth : RESPValue → Nat
  | .mk t _ _ a nl =>
    match t with
    | .array => if nl then 1 else 1 + maxDepthL a
    | _ => 1
def maxDepthL : List RESPValue → Nat
  | [] => 0
  | v :: vs => max (vdepth v) (maxDepthL vs)
end

theorem digitToNat_digitChr {m : Nat} (h : m < 10) : digitToNat (digitChr m) = m := by
  interval_cases m <;> rfl

theorem isDigitCh_digitChr {m : Nat} (h : m < 10) : isDigitCh (digitChr m) = true := by
  interval_cases m <;> rfl

theorem natDigitsAux_spec :
    ∀ (fuel n : Nat) (acc : List Char), n < fuel →
      ∃ ds, natDigitsAux fuel n acc = ds ++ acc ∧ ds ≠ [] ∧
        allDigits ds = true ∧ digitsVal ds = n := by
  intro fuel
  induction fuel with
  | zero => intro n acc h; omega
  | succ fuel ih =>
    intro n acc h
    by_cases hlt : n < 10
    · refine ⟨[digitChr (n % 10)], ?_, by simp, ?_, ?_⟩
      · simp [natDigitsAux, hlt]
      · simp [allDigits, isDigitCh_digitChr (Nat.mod_lt n (by omega))]
      · simp [digitsVal]
        rw [digitToNat_digitChr (by omega)]
        omega
    · have hdiv : n / 10 < fuel := by omega
      obtain ⟨ds, hds, hne, hall, hval⟩ := ih (n / 10) (digitChr (n % 10) :: acc) hdiv
      refine ⟨ds ++ [digitChr (n % 10)], ?_, by simp, ?_, ?_⟩
      · simp only [natDigitsAux, if_neg hlt]
        rw [hds]; simp
      · simp [allDigits] at hall ⊢
        exact ⟨hall, isDigitCh_digitChr (by omega)⟩
      · simp only [digitsVal, List.foldl_append] at hval ⊢
        simp only [List.foldl_cons, List.foldl_nil]
        rw [digitToNat_digitChr (by omega)]
        omega

theorem formatNat_spec (n : Nat) :
    formatNat n ≠ [] ∧ allDigits (formatNat n) = true ∧ digitsVal (formatNat n) = n := by
  obtain ⟨ds, hds, hne, hall, hval⟩ := natDigitsAux_spec (n + 1) n [] (by omega)
  unfold formatNat
  rw [hds]
  simpa [hne] using ⟨hall, hval⟩

theorem goParseDec_formatNat (n : Nat) : goParseDec (formatNat n) = some n := by
  obtain ⟨hne, hall, hval⟩ := formatNat_spec n
  simp [goParseDec, hne, hall, hval]

theorem isDigitCh_ne_plus {c : Char} (h : isDigitCh c = true) : c ≠ '+' := by
  rintro rfl; exact absurd h (by decide)

theorem isDigitCh_ne_minus {c : Char} (h : isDigitCh c = true) : c ≠ '-' := by
  rintro rfl; exact absurd h (by decide)

theorem lf_not_mem_formatNat (n : Nat) : '\n' ∉ formatNat n := by
  obtain ⟨-, hall, -⟩ := formatNat_spec n
  intro hmem
  simp only [allDigits, List.all_eq_true] at hall
  exact absurd (hall _ hmem) (by decide)

theorem lf_not_mem_goFormatInt (i : Int) : '\n' ∉ goFormatInt i := by
  unfold goFormatInt
  split
  · intro h
    rcases List.mem_cons.mp h with h | h
    · exact absurd h (by decide)
    · exact lf_not_mem_formatNat _ h
  · exact lf_not_mem_formatNat _

theorem goParseInt_goFormatInt {i : Int} (h1 : -(2 ^ 63) ≤ i) (h2 : i ≤ int64Max) :
    goParseInt (goFormatInt i) = some i := by
  by_cases hneg : i < 0
  · obtain ⟨hne, hall, hval⟩ := formatNat_spec i.natAbs
    have hrange : (i.natAbs : Int) ≤ 2 ^ 63 := by
      simp only [int64Max] at h2; omega
    simp only [goFormatInt, if_pos hneg, goParseInt]
    simp only [goParseDec_formatNat, hval]
    rw [if_pos trivial, if_pos hrange]
    have : -((i.natAbs : Nat) : Int) = i := by omega
    rw [this]
    rw [if_neg (by decide)]
  · obtain ⟨hne, hall, hval⟩ := formatNat_spec i.toNat
    obtain ⟨c, cs, hcc⟩ : ∃ c cs, formatNat i.toNat = c :: cs := by
      cases hfn : formatNat i.toNat with
      | nil => exact absurd hfn hne
      | cons c cs => exact ⟨c, cs, rfl⟩
    have hdig : isDigitCh c = true := by
      have := hall
      rw [hcc] at this
      simp [allDigits] at this
      exact this.1
    simp only [goFormatInt, if_neg hneg]
    rw [hcc]
    simp only [goParseInt]
    rw [if_neg (isDigitCh_ne_plus hdig), if_neg (isDigitCh_ne_minus hdig), ← hcc,
      goParseDec_formatNat]
    show (if ((i.toNat : Nat) : Int) ≤ int64Max then some ((i.toNat : Nat) : Int) else none)
      = some i
    have htn : ((i.toNat : Nat) : Int) = i := by omega
    rw [htn, if_pos h2]

theorem readStringLF_append {s : List Char} (h : '\n' ∉ s) (rest : List Char) :
    readStringLF (s ++ '\n' :: rest) = some (s ++ ['\n'], rest) := by
  induction s with
  | nil => simp [readStringLF]
  | cons c cs ih =>
    have hc : ¬ (c = '\n') := fun hc => h (by simp [hc])
    have h' : '\n' ∉ cs := fun hm => h (by simp [hm])
    simp [readStringLF, hc, ih h']

theorem readLine_append {s : List Char} (h : '\n' ∉ s) (rest : List Char) :
    readLine (s ++ '\r' :: '\n' :: rest) = some (s, rest) := by
  have h2 : '\n' ∉ s ++ ['\r'] := by
    intro hm
    rcases List.mem_append.mp hm with hm | hm
    · exact h hm
    · simp at hm
  have hlf := readStringLF_append h2 rest
  simp only [List.append_assoc, List.cons_append, List.nil_append] at hlf
  unfold readLine
  rw [hlf]
  have hlen : (s ++ ['\r', '\n']).length = s.length + 2 := by simp
  show (if (s ++ ['\r', '\n']).length < 2 then none
    else if (s ++ ['\r', '\n']).getD ((s ++ ['\r', '\n']).length - 2) ' ' ≠ '\r' then none
    else some ((s ++ ['\r', '\n']).take ((s ++ ['\r', '\n']).length - 2), rest))
    = some (s, rest)
  rw [hlen]
  rw [if_neg (by omega)]
  have h22 : s.length + 2 - 2 = s.length := by omega
  rw [h22]
  have hgd : (s ++ ['\r', '\n']).getD s.length ' ' = '\r' := by
    rw [List.getD_append_right s _ ' ' s.length (le_refl _)]
    simp
  rw [if_neg (by rw [hgd]; intro hx; exact hx rfl)]
  rw [List.take_left]

theorem respInd (P : RESPValue → Prop)
    (h : ∀ t s i a nl, (∀ v, v ∈ a → P v) → P (.mk t s i a nl)) :
    ∀ v, P v := by
  have key : ∀ N (v : RESPValue), sizeOf v ≤ N → P v := by
    intro N
    induction N with
    | zero =>
      intro v hv
      cases v with
      | mk t s i a nl => simp at hv
    | succ N ih =>
      intro v hv
      cases v with
      | mk t s i a nl =>
        apply h
        intro v' hv'
        apply ih
        have h1 := List.sizeOf_lt_of_mem hv'
        simp at hv
        omega
  exact fun v => key (sizeOf v) v (le_refl _)

theorem WFL_mem {a : List RESPValue} (h : WFL a = true) : ∀ v ∈ a, WFV v = true := by
  induction a with
  | nil => simp
  | cons w ws ih =>
    simp only [WFL, Bool.and_eq_true] at h
    intro v' hv'
    rcases List.mem_cons.mp hv' with rfl | hv'
    · exact h.1
    · exact ih h.2 v' hv'

theorem vdepth_le_maxDepthL {v : RESPValue} {a : List RESPValue} (h : v ∈ a) :
    vdepth v ≤ maxDepthL a := by
  induction a with
  | nil => simp at h
  | cons w ws ih =>
    rcases List.mem_cons.mp h with rfl | h
    · simp only [maxDepthL]; exact le_max_left _ _
    · simp only [maxDepthL]; exact le_trans (ih h) (le_max_right _ _)

theorem readSimpleString_append {s : List Char} (h : '\n' ∉ s) (rest : List Char) :
    readSimpleString (s ++ '\r' :: '\n' :: rest)
      = some (.mk .simpleString s 0 [] false, rest) := by
  simp only [readSimpleString, readLine_append h]

theorem readError_append {s : List Char} (h : '\n' ∉ s) (rest : List Char) :
    readError (s ++ '\r' :: '\n' :: rest) = some (.mk .error s 0 [] false, rest) := by
  simp only [readError, readLine_append h]

theorem readInteger_append {i : Int} (h1 : -(2 ^ 63) ≤ i) (h2 : i ≤ int64Max)
    (rest : List Char) :
    readInteger (goFormatInt i ++ '\r' :: '\n' :: rest)
      = some (.mk .integer [] i [] false, rest) := by
  simp only [readInteger, readLine_append (lf_not_mem_goFormatInt i),
    goParseInt_goFormatInt h1 h2]

/-- Any negative declared length yields the null bulk string, consuming no
body bytes. -/
theorem readBulkString_neg {sz : Int} (hneg : sz < 0) (hrange : -(2 ^ 63) ≤ sz)
    (rest : List Char) :
    readBulkString (goFormatInt sz ++ '\r' :: '\n' :: rest)
      = some (.mk .bulkString [] 0 [] true, rest) := by
  have h2 : sz ≤ int64Max := by simp only [int64Max]; omega
  simp only [readBulkString, goAtoi, readLine_append (lf_not_mem_goFormatInt sz),
    goParseInt_goFormatInt hrange h2, if_pos hneg]

theorem goFormatInt_natCast (n : Nat) : goFormatInt (n : Int) = formatNat n := by
  rw [goFormatInt, if_neg (by omega)]
  simp

theorem goAtoi_formatNat {n : Nat} (h : (n : Int) ≤ int64Max) :
    goAtoi (formatNat n) = some (n : Int) := by
  have := goParseInt_goFormatInt (i := (n : Int)) (by omega) h
  rwa [goFormatInt_natCast] at this

/-- A non-negative declared length consumes exactly the declared bytes plus
the `\r\n` terminator. -/
theorem readBulkString_nonneg {s : List Char} (hlen : (s.length : Int) ≤ int64Max)
    (rest : List Char) :
    readBulkString (formatNat s.length ++ '\r' :: '\n' :: (s ++ '\r' :: '\n' :: rest))
      = some (.mk .bulkString s 0 [] false, rest) := by
  simp only [readBulkString,
    readLine_append (lf_not_mem_formatNat s.length), goAtoi_formatNat hlen]
  rw [if_neg (by omega)]
  have htn : ((s.length : Int)).toNat = s.length := by omega
  rw [htn]
  have htk : (s ++ '\r' :: '\n' :: rest).take (s.length + 2)
      = s ++ ['\r', '\n'] := by
    have : s ++ '\r' :: '\n' :: rest = (s ++ ['\r', '\n']) ++ rest := by simp
    rw [this]
    have hl2 : s.length + 2 = (s ++ ['\r', '\n']).length := by simp
    rw [hl2, List.take_left]
  rw [htk]
  rw [if_neg (by simp)]
  have hdr : (s ++ ['\r', '\n']).drop s.length = ['\r', '\n'] := List.drop_left s _
  rw [hdr]
  rw [if_neg (by simp)]
  have htk2 : (s ++ ['\r', '\n']).take s.length = s := List.take_left s _
  rw [htk2]
  have hdr2 : (s ++ '\r' :: '\n' :: rest).drop (s.length + 2) = rest := by
    have : s ++ '\r' :: '\n' :: rest = (s ++ ['\r', '\n']) ++ rest := by simp
    rw [this]
    have hl2 : s.length + 2 = (s ++ ['\r', '\n']).length := by simp
    rw [hl2, List.drop_left]
  rw [hdr2]

/-- Any negative declared count yields the null array. -/
theorem readArrayGo_neg (rv : List Char → Option (RESPValue × List Char))
    {sz : Int} (hneg : sz < 0) (hrange : -(2 ^ 63) ≤ sz) (rest : List Char) :
    readArrayGo rv (goFormatInt sz ++ '\r' :: '\n' :: rest)
      = some (.mk .array [] 0 [] true, rest) := by
  have h2 : sz ≤ int64Max := by simp only [int64Max]; omega
  simp only [readArrayGo, goAtoi, readLine_append (lf_not_mem_goFormatInt sz),
    goParseInt_goFormatInt hrange h2, if_pos hneg]

theorem readManyGo_serializeList (rv : List Char → Option (RESPValue × List Char))
    (a : List RESPValue)
    (hIH : ∀ v, v ∈ a → ∀ r, rv (v.Serialize ++ r) = some (canon v, r)) :
    ∀ rest, readManyGo rv a.length (serializeList a ++ rest)
      = some (canonList a, rest) := by
  induction a with
  | nil => intro rest; simp [readManyGo, serializeList, canonList]
  | cons v vs ih =>
    intro rest
    have h1 := hIH v (by simp) (serializeList vs ++ rest)
    have h2 := ih (fun v' hv' r => hIH v' (by simp [hv']) r) rest
    simp only [serializeList, List.append_assoc, List.length_cons, canonList]
    simp only [readManyGo, h1, h2]

theorem vdepth_pos (v : RESPValue) : 1 ≤ vdepth v := by
  cases v with
  | mk t s i a nl =>
    cases t
    case array =>
      simp only [vdepth]
      split <;> omega
    all_goals simp [vdepth]

theorem readValue_succ (f : Nat) (s : List Char) :
    readValue (f + 1) s = readValueStep (readValue f) s := rfl

theorem readValueStep_plus (rv : List Char → Option (RESPValue × List Char)) (s : List Char) :
    readValueStep rv ('+' :: s) = readSimpleString s := rfl

theorem readValueStep_minus (rv : List Char → Option (RESPValue × List Char)) (s : List Char) :
    readValueStep rv ('-' :: s) = readError s := rfl

theorem readValueStep_colon (rv : List Char → Option (RESPValue × List Char)) (s : List Char) :
    readValueStep rv (':' :: s) = readInteger s := rfl

theorem readValueStep_dollar (rv : List Char → Option (RESPValue × List Char)) (s : List Char) :
    readValueStep rv ('$' :: s) = readBulkString s := rfl

theorem readValueStep_star (rv : List Char → Option (RESPValue × List Char)) (s : List Char) :
    readValueStep rv ('*' :: s) = readArrayGo rv s := rfl

theorem readArrayGo_nonneg (rv : List Char → Option (RESPValue × List Char))
    (a : List RESPValue) (hcnt : (a.length : Int) ≤ int64Max)
    (hIH : ∀ v, v ∈ a → ∀ r, rv (v.Serialize ++ r) = some (canon v, r)) (rest : List Char) :
    readArrayGo rv (formatNat a.length ++ '\r' :: '\n' :: (serializeList a ++ rest))
      = some (.mk .array [] 0 (canonList a) false, rest) := by
  simp only [readArrayGo, readLine_append (lf_not_mem_formatNat a.length),
    goAtoi_formatNat hcnt]
  rw [if_neg (by omega)]
  have htn : ((a.length : Int)).toNat = a.length := by omega
  rw [htn, readManyGo_serializeList rv a hIH rest]

/-- Parsing the serialization: the central round-trip lemma. -/
theorem readValue_serialize :
    ∀ v : RESPValue, WFV v = true →
      ∀ fuel rest, vdepth v ≤ fuel →
        readValue fuel (v.Serialize ++ rest) = some (canon v, rest) := by
  apply respInd
  intro t s i a nl ihmem hwf fuel rest hfuel
  obtain ⟨f, rfl⟩ : ∃ f, fuel = f + 1 :=
    ⟨fuel - 1, by have := vdepth_pos (.mk t s i a nl); omega⟩
  cases t
  case simpleString =>
    have hs : '\n' ∉ s := by simpa [WFV] using hwf
    simp only [RESPValue.Serialize, List.cons_append, List.append_assoc, List.nil_append]
    rw [readValue_succ, readValueStep_plus, readSimpleString_append hs]
    simp [canon]
  case error =>
    have hs : '\n' ∉ s := by simpa [WFV] using hwf
    simp only [RESPValue.Serialize, List.cons_append, List.append_assoc, List.nil_append]
    rw [readValue_succ, readValueStep_minus, readError_append hs]
    simp [canon]
  case integer =>
    have hi : -(2 ^ 63) ≤ i ∧ i ≤ int64Max := by simpa [WFV] using hwf
    simp only [RESPValue.Serialize, List.cons_append, List.append_assoc, List.nil_append]
    rw [readValue_succ, readValueStep_colon, readInteger_append hi.1 hi.2]
    simp [canon]
  case bulkString =>
    cases nl with
    | true =>
      have h := @readBulkString_neg (-1) (by decide) (by decide) rest
      simp only [show goFormatInt (-1) = ['-', '1'] from by decide,
        List.cons_append, List.nil_append] at h
      have hser : (RESPValue.mk RESPType.bulkString s i a true).Serialize
          = ['$', '-', '1', '\r', '\n'] := rfl
      have hcan : canon (RESPValue.mk RESPType.bulkString s i a true)
          = RESPValue.mk RESPType.bulkString [] 0 [] true := rfl
      rw [hser, hcan]
      simp only [List.cons_append, List.nil_append]
      rw [readValue_succ, readValueStep_dollar, h]
    | false =>
      have hlen : (s.length : Int) ≤ int64Max := by simpa [WFV] using hwf
      have hser : (RESPValue.mk RESPType.bulkString s i a false).Serialize
          = '$' :: (formatNat s.length ++ ['\r', '\n'] ++ s ++ ['\r', '\n']) := rfl
      have hcan : canon (RESPValue.mk RESPType.bulkString s i a false)
          = RESPValue.mk RESPType.bulkString s 0 [] false := rfl
      rw [hser, hcan]
      simp only [List.cons_append, List.append_assoc, List.nil_append]
      rw [readValue_succ, readValueStep_dollar, readBulkString_nonneg hlen rest]
  case array =>
    cases nl with
    | true =>
      have h := @readArrayGo_neg (readValue f) (-1) (by decide) (by decide) rest
      simp only [show goFormatInt (-1) = ['-', '1'] from by decide,
        List.cons_append, List.nil_append] at h
      have hser : (RESPValue.mk RESPType.array s i a true).Serialize
          = ['*', '-', '1', '\r', '\n'] := rfl
      have hcan : canon (RESPValue.mk RESPType.array s i a true)
          = RESPValue.mk RESPType.array [] 0 [] true := rfl
      rw [hser, hcan]
      simp only [List.cons_append, List.nil_append]
      rw [readValue_succ, readValueStep_star, h]
    | false =>
      have hwf' : (decide ((a.length : Int) ≤ int64Max) && WFL a) = true := by
        simpa [WFV] using hwf
      have hcnt : (a.length : Int) ≤ int64Max := by
        have := (Bool.and_eq_true _ _).mp hwf'
        simpa using this.1
      have hWL : WFL a = true := ((Bool.and_eq_true _ _).mp hwf').2
      have hmd : maxDepthL a ≤ f := by
        have hv : vdepth (RESPValue.mk .array s i a false) = 1 + maxDepthL a := by
          simp [vdepth]
        omega
      have hIH : ∀ v, v ∈ a → ∀ r, readValue f (v.Serialize ++ r) = some (canon v, r) := by
        intro v hv r
        exact ihmem v hv (WFL_mem hWL v hv) f r (le_trans (vdepth_le_maxDepthL hv) hmd)
      have hser : (RESPValue.mk RESPType.array s i a false).Serialize
          = '*' :: (formatNat a.length ++ ['\r', '\n'] ++ serializeList a) := rfl
      have hcan : canon (RESPValue.mk RESPType.array s i a false)
          = RESPValue.mk RESPType.array [] 0 (canonList a) false := rfl
      rw [hser, hcan]
      simp only [List.cons_append, List.append_assoc, List.nil_append]
      rw [readValue_succ, readValueStep_star,
        readArrayGo_nonneg (readValue f) a hcnt hIH rest]

theorem maxDepthL_le_serializeList (a : List RESPValue)
    (hIH : ∀ v ∈ a, vdepth v ≤ v.Serialize.length) :
    maxDepthL a ≤ (serializeList a).length := by
  induction a with
  | nil => simp [maxDepthL, serializeList]
  | cons v vs ih =>
    simp only [maxDepthL, serializeList, List.length_append]
    have h1 := hIH v (by simp)
    have h2 := ih (fun v' hv' => hIH v' (by simp [hv']))
    exact max_le (by omega) (by omega)

theorem vdepth_le_serialize : ∀ v : RESPValue, vdepth v ≤ v.Serialize.length := by
  apply respInd
  intro t s i a nl ih
  cases t
  case simpleString => simp only [vdepth, RESPValue.Serialize, List.length_cons]; omega
  case error => simp only [vdepth, RESPValue.Serialize, List.length_cons]; omega
  case integer => simp only [vdepth, RESPValue.Serialize, List.length_cons]; omega
  case bulkString =>
    cases nl with
    | true =>
      have hser : (RESPValue.mk RESPType.bulkString s i a true).Serialize
          = ['$', '-', '1', '\r', '\n'] := rfl
      have hd : vdepth (RESPValue.mk RESPType.bulkString s i a true) = 1 := rfl
      rw [hser, hd]; simp
    | false =>
      have hser : (RESPValue.mk RESPType.bulkString s i a false).Serialize
          = '$' :: (formatNat s.length ++ ['\r', '\n'] ++ s ++ ['\r', '\n']) := rfl
      have hd : vdepth (RESPValue.mk RESPType.bulkString s i a false) = 1 := rfl
      rw [hser, hd]; simp
  case array =>
    cases nl with
    | true =>
      have hser : (RESPValue.mk RESPType.array s i a true).Serialize
          = ['*', '-', '1', '\r', '\n'] := rfl
      have hd : vdepth (RESPValue.mk RESPType.array s i a true) = 1 := rfl
      rw [hser, hd]; simp
    | false =>
      have hser : (RESPValue.mk RESPType.array s i a false).Serialize
          = '*' :: (formatNat a.length ++ ['\r', '\n'] ++ serializeList a) := rfl
      have hd : vdepth (RESPValue.mk RESPType.array s i a false) = 1 + maxDepthL a := rfl
      rw [hser, hd]
      have := maxDepthL_le_serializeList a ih
      simp only [List.length_cons, List.length_append]
      omega

theorem canonList_length (a : List RESPValue) : (canonList a).length = a.length := by
  induction a with
  | nil => rfl
  | cons v vs ih => simp [canonList, ih]

theorem serializeList_canonList (a : List RESPValue)
    (hIH : ∀ v ∈ a, (canon v).Serialize = v.Serialize) :
    serializeList (canonList a) = serializeList a := by
  induction a with
  | nil => rfl
  | cons v vs ih =>
    simp only [canonList, serializeList]
    rw [hIH v (by simp), ih (fun v' hv' => hIH v' (by simp [hv']))]

/-- The canonical re-read of a value serializes to the same bytes. -/
theorem serialize_canon : ∀ v : RESPValue, (canon v).Serialize = v.Serialize := by
  apply respInd
  intro t s i a nl ih
  cases t
  case simpleString => rfl
  case error => rfl
  case integer => rfl
  case bulkString => cases nl <;> rfl
  case array =>
    cases nl with
    | true => rfl
    | false =>
      have hcan : canon (RESPValue.mk RESPType.array s i a false)
          = RESPValue.mk RESPType.array [] 0 (canonList a) false := rfl
      rw [hcan]
      have h1 : (RESPValue.mk RESPType.array [] 0 (canonList a) false).Serialize
          = '*' :: (formatNat (canonList a).length ++ ['\r', '\n']
            ++ serializeList (canonList a)) := rfl
      have h2 : (RESPValue.mk RESPType.array s i a false).Serialize
          = '*' :: (formatNat a.length ++ ['\r', '\n'] ++ serializeList a) := rfl
      rw [h1, h2, canonList_length, serializeList_canonList a ih]

/-- C3: for every RESP value constructible by the grammar (all five types,
including null bulk string, null array and nested arrays), parsing the
serialization of `v` consumes it exactly and serializing the result yields
the same bytes: `Serialize(ReadValue(Serialize(v))) == Serialize(v)`. -/
theorem c3_serialize_roundtrip (v : RESPValue) (hwf : WFV v = true) :
    ∃ v' : RESPValue, ReadValue v.Serialize = some (v', [])
      ∧ v'.Serialize = v.Serialize := by
  refine ⟨canon v, ?_, serialize_canon v⟩
  have h := readValue_serialize v hwf (v.Serialize.length + 1) []
    (by have := vdepth_le_serialize v; omega)
  rw [List.append_nil] at h
  exact h

/-- A nested sample exercising all five RESP types and both nulls. -/
def respSample : RESPValue :=
  .mk .array [] 0
    [ .mk .simpleString "OK".toList 0 [] false
    , .mk .error "ERR x".toList 0 [] false
    , .mk .integer [] (-42) [] false
    , .mk .bulkString "foobar".toList 0 [] false
    , .mk .bulkString [] 0 [] true
    , .mk .array [] 0 [] true
    , .mk .array [] 0 [.mk .bulkString "y".toList 0 [] false] false
    ] false

theorem c3_serialize_roundtrip_witness :
    WFV respSample = true ∧
    ∃ v' : RESPValue, ReadValue respSample.Serialize = some (v', [])
      ∧ v'.Serialize = respSample.Serialize :=
  ⟨by decide, c3_serialize_roundtrip respSample (by decide)⟩

/-- C10: every negative declared length or count (for example `$-5\r\n` or
`*-2\r\n`, not only `-1`) makes `ReadValue` return the null bulk string or
null array without consuming any body bytes, and serializing those nulls
always emits the canonical `$-1\r\n` / `*-1\r\n`. -/
theorem c10_negative_normalizes :
    (∀ (sz : Int) (rest : List Char), sz < 0 → -(2 ^ 63) ≤ sz →
      ReadValue ('$' :: (goFormatInt sz ++ '\r' :: '\n' :: rest))
        = some (.mk .bulkString [] 0 [] true, rest)) ∧
    (∀ (sz : Int) (rest : List Char), sz < 0 → -(2 ^ 63) ≤ sz →
      ReadValue ('*' :: (goFormatInt sz ++ '\r' :: '\n' :: rest))
        = some (.mk .array [] 0 [] true, rest)) ∧
    (RESPValue.mk .bulkString [] 0 [] true).Serialize = "$-1\r\n".toList ∧
    (RESPValue.mk .array [] 0 [] true).Serialize = "*-1\r\n".toList := by
  refine ⟨?_, ?_, by rfl, by rfl⟩
  · intro sz rest h1 h2
    unfold ReadValue
    rw [show ('$' :: (goFormatInt sz ++ '\r' :: '\n' :: rest)).length + 1
        = (goFormatInt sz ++ '\r' :: '\n' :: rest).length + 1 + 1 from by simp]
    rw [readValue_succ, readValueStep_dollar, readBulkString_neg h1 h2 rest]
  · intro sz rest h1 h2
    unfold ReadValue
    rw [show ('*' :: (goFormatInt sz ++ '\r' :: '\n' :: rest)).length + 1
        = (goFormatInt sz ++ '\r' :: '\n' :: rest).length + 1 + 1 from by simp]
    rw [readValue_succ, readValueStep_star,
      readArrayGo_neg _ h1 h2 rest]

theorem c10_negative_normalizes_witness :
    ReadValue "$-5\r\nleft".toList = some (.mk .bulkString [] 0 [] true, "left".toList) ∧
    ReadValue "*-2\r\nleft".toList = some (.mk .array [] 0 [] true, "left".toList) := by
  constructor
  · have h := c10_negative_normalizes.1 (-5) "left".toList (by decide) (by decide)
    simpa [show goFormatInt (-5) = ['-', '5'] from by decide] using h
  · have h := c10_negative_normalizes.2.1 (-2) "left".toList (by decide) (by decide)
    simpa [show goFormatInt (-2) = ['-', '2'] from by decide] using h

/-- C4: a non-negative declared bulk length `n` consumes exactly `n` payload
bytes plus two terminator bytes (the remainder is untouched); whenever the
two bytes at positions `n` and `n+1` after the length line are not `\r\n`
the parse is a framing error, never a value; a declared length of `-1`
yields the null bulk string with no body consumed. -/
theorem c4_bulk_framing :
    (∀ (payload rest : List Char), (payload.length : Int) ≤ int64Max →
      readBulkString (formatNat payload.length ++ '\r' :: '\n'
          :: (payload ++ '\r' :: '\n' :: rest))
        = some (.mk .bulkString payload 0 [] false, rest)) ∧
    (∀ (payload rest : List Char) (c1 c2 : Char), (payload.length : Int) ≤ int64Max →
      ¬(c1 = '\r' ∧ c2 = '\n') →
      readBulkString (formatNat payload.length ++ '\r' :: '\n'
          :: (payload ++ c1 :: c2 :: rest))
        = none) ∧
    (∀ rest : List Char, readBulkString ('-' :: '1' :: '\r' :: '\n' :: rest)
        = some (.mk .bulkString [] 0 [] true, rest)) := by
  refine ⟨?_, ?_, ?_⟩
  · intro payload rest hlen
    exact readBulkString_nonneg hlen rest
  · intro payload rest c1 c2 hlen hterm
    simp only [readBulkString, readLine_append (lf_not_mem_formatNat payload.length),
      goAtoi_formatNat hlen]
    rw [if_neg (by omega)]
    have htn : ((payload.length : Int)).toNat = payload.length := by omega
    rw [htn]
    have heq : payload ++ c1 :: c2 :: rest = (payload ++ [c1, c2]) ++ rest := by simp
    rw [heq]
    have htk : ((payload ++ [c1, c2]) ++ rest).take (payload.length + 2)
        = payload ++ [c1, c2] := by
      have hl2 : payload.length + 2 = (payload ++ [c1, c2]).length := by simp
      rw [hl2, List.take_left]
    rw [htk]
    rw [if_neg (by simp)]
    have hdr : (payload ++ [c1, c2]).drop payload.length = [c1, c2] := List.drop_left _ _
    rw [hdr]
    have hne : [c1, c2] ≠ ['\r', '\n'] := by
      intro h
      apply hterm
      simpa using h
    rw [if_pos hne]
  · intro rest
    have h := @readBulkString_neg (-1) (by decide) (by decide) rest
    simpa [show goFormatInt (-1) = ['-', '1'] from by decide] using h

theorem c4_bulk_framing_witness :
    ((("foobar".toList.length : Int) ≤ int64Max) ∧
      readBulkString "6\r\nfoobar\r\ntail".toList
        = some (.mk .bulkString "foobar".toList 0 [] false, "tail".toList)) ∧
    ((¬('X' = '\r' ∧ 'Y' = '\n')) ∧
      readBulkString "6\r\nfoobarXYtail".toList = none) ∧
    readBulkString "-1\r\ntail".toList
      = some (.mk .bulkString [] 0 [] true, "tail".toList) := by
  refine ⟨⟨by decide, ?_⟩, ⟨by decide, ?_⟩, ?_⟩
  · exact c4_bulk_framing.1 "foobar".toList "tail".toList (by decide)
  · exact c4_bulk_framing.2.1 "foobar".toList "tail".toList 'X' 'Y' (by decide) (by decide)
  · exact c4_bulk_framing.2.2 "tail".toList

theorem goHasPre_iff (s pre : List Char) :
    goHasPre s pre = true ↔ ∃ t, s = pre ++ t := by
  induction pre generalizing s with
  | nil =>
    simp [goHasPre]
  | cons p ps ih =>
    cases s with
    | nil => simp [goHasPre]
    | cons c cs =>
      simp only [goHasPre, Bool.and_eq_true, decide_eq_true_eq, ih, List.cons_append,
        List.cons.injEq]
      constructor
      · rintro ⟨rfl, t, rfl⟩
        exact ⟨t, rfl, rfl⟩
      · rintro ⟨t, rfl, rfl⟩
        exact ⟨rfl, t, rfl⟩

/-- C5: `IsRedirectError v` is true exactly when `v` is an Error whose
payload begins with the literal prefix `"MOVED "` or `"ASK "` (trailing
space included); it is false for every non-Error value and for an Error
with payload `"ERR something"`. -/
theorem c5_is_redirect_iff :
    (∀ v : RESPValue, v.IsRedirectError = true ↔
        (v.ty = RESPType.error ∧
          ((∃ t, v.str = "MOVED ".toList ++ t) ∨ (∃ t, v.str = "ASK ".toList ++ t)))) ∧
    (∀ v : RESPValue, v.ty ≠ RESPType.error → v.IsRedirectError = false) ∧
    (∀ (i : Int) (a : List RESPValue) (nl : Bool),
      (RESPValue.mk .error "ERR something".toList i a nl).IsRedirectError = false) := by
  refine ⟨?_, ?_, ?_⟩
  · intro v
    cases v with
    | mk t s i a nl =>
      cases t <;>
        simp [RESPValue.IsRedirectError, RESPValue.ty, RESPValue.str, goHasPre_iff]
  · intro v hne
    cases v with
    | mk t s i a nl =>
      simp only [RESPValue.ty] at hne
      simp [RESPValue.IsRedirectError, RESPValue.ty, hne]
  · intro i a nl
    rfl

theorem c5_is_redirect_iff_witness :
    (RESPValue.mk .integer [] 7 [] false).ty ≠ RESPType.error ∧
    (RESPValue.mk .integer [] 7 [] false).IsRedirectError = false :=
  ⟨by decide, c5_is_redirect_iff.2.1 (RESPValue.mk .integer [] 7 [] false) (by decide)⟩

/-- C6: for every Error value and every node map, when the payload does not
split into exactly three whitespace-separated fields, or the third field is
not a key of the map (in particular for the empty map), the rewrite returns
`false` and the value — payload included — is byte-identical to its input. -/
theorem c6_rewrite_miss (v : RESPValue) (nodeMap : List (List Char × List Char))
    (hty : v.ty = RESPType.error)
    (hmiss : (goFields v.str).length ≠ 3 ∨
      goLookup nodeMap ((goFields v.str).getD 2 []) = none) :
    v.RewriteRedirectError nodeMap = (false, v) := by
  unfold RESPValue.RewriteRedirectError
  by_cases hred : v.IsRedirectError = true
  · rw [if_neg (by simp [hred])]
    rcases hgf : goFields v.str with _ | ⟨f1, _ | ⟨f2, _ | ⟨f3, _ | ⟨f4, fs⟩⟩⟩⟩
    · rfl
    · rfl
    · rfl
    · have hlook : goLookup nodeMap f3 = none := by
        rcases hmiss with h3 | hlook
        · exact absurd (by rw [hgf]; rfl) h3
        · rw [hgf] at hlook
          simpa using hlook
      simp [hlook]
    · rfl
  · rw [if_pos (by simpa using hred)]

theorem c6_rewrite_miss_witness :
    ((RESPValue.mk .error "MOVED 3999 10.0.0.9:6379".toList 0 [] false).ty
        = RESPType.error ∧
      (RESPValue.mk .error "MOVED 3999 10.0.0.9:6379".toList 0 [] false).RewriteRedirectError []
        = (false, RESPValue.mk .error "MOVED 3999 10.0.0.9:6379".toList 0 [] false)) ∧
    ((RESPValue.mk .error "MOVED 3999".toList 0 [] false).RewriteRedirectError
        [("10.0.0.9:6379".toList, "127.0.0.1:6380".toList)]
      = (false, RESPValue.mk .error "MOVED 3999".toList 0 [] false)) := by
  refine ⟨⟨by decide, ?_⟩, ?_⟩
  · exact c6_rewrite_miss _ [] (by decide) (by right; rfl)
  · exact c6_rewrite_miss _ _ (by decide) (by left; decide)

/-- C7: on a successful rewrite the payload becomes exactly
`<keyword> <slot> <local address>` with single-space separators, keyword
and slot passed through unchanged, and the function returns `true`; the
spec's concrete example rewrites to `"MOVED 3999 127.0.0.1:6381"`. -/
theorem c7_rewrite_hit :
    (∀ (v : RESPValue) (nodeMap : List (List Char × List Char))
        (kw slot target localAddr : List Char),
      v.IsRedirectError = true →
      goFields v.str = [kw, slot, target] →
      goLookup nodeMap target = some localAddr →
      v.RewriteRedirectError nodeMap
        = (true, v.setStr (kw ++ ' ' :: slot ++ ' ' :: localAddr))) ∧
    (RESPValue.mk .error "MOVED 3999 10.128.0.5:6379".toList 0 [] false).RewriteRedirectError
        [("10.128.0.5:6379".toList, "127.0.0.1:6381".toList)]
      = (true, .mk .error "MOVED 3999 127.0.0.1:6381".toList 0 [] false) := by
  constructor
  · intro v nodeMap kw slot target localAddr hred hfields hlook
    unfold RESPValue.RewriteRedirectError
    rw [if_neg (by simp [hred])]
    rw [hfields]
    simp [hlook]
  · rfl

theorem c7_rewrite_hit_witness :
    ((RESPValue.mk .error "ASK 12 10.0.0.7:6379".toList 0 [] false).IsRedirectError = true ∧
      goFields (RESPValue.mk .error "ASK 12 10.0.0.7:6379".toList 0 [] false).str
        = ["ASK".toList, "12".toList, "10.0.0.7:6379".toList] ∧
      goLookup [("10.0.0.7:6379".toList, "127.0.0.1:6382".toList)] "10.0.0.7:6379".toList
        = some "127.0.0.1:6382".toList) ∧
    (RESPValue.mk .error "ASK 12 10.0.0.7:6379".toList 0 [] false).RewriteRedirectError
        [("10.0.0.7:6379".toList, "127.0.0.1:6382".toList)]
      = (true, (RESPValue.mk .error "ASK 12 10.0.0.7:6379".toList 0 [] false).setStr
          ("ASK".toList ++ ' ' :: "12".toList ++ ' ' :: "127.0.0.1:6382".toList)) :=
  ⟨⟨by decide, by decide, by decide⟩,
    c7_rewrite_hit.1 (RESPValue.mk .error "ASK 12 10.0.0.7:6379".toList 0 [] false)
      [("10.0.0.7:6379".toList, "127.0.0.1:6382".toList)]
      "ASK".toList "12".toList "10.0.0.7:6379".toList "127.0.0.1:6382".toList
      (by decide) (by decide) (by decide)⟩

theorem cutAt_no_sep {c : Char} {s : List Char} (h : c ∉ s) : cutAt c s = s := by
  induction s with
  | nil => rfl
  | cons x xs ih =>
    have hx : x ≠ c := fun hxc => h (by simp [hxc])
    have h' : c ∉ xs := fun hm => h (by simp [hm])
    simpa [cutAt, hx] using ih h'

theorem cutAt_append {c : Char} {pre : List Char} (h : c ∉ pre) (post : List Char) :
    cutAt c (pre ++ c :: post) = pre := by
  induction pre with
  | nil => simp [cutAt]
  | cons x xs ih =>
    have hx : x ≠ c := fun hxc => h (by simp [hxc])
    have h' : c ∉ xs := fun hm => h (by simp [hm])
    simpa [cutAt, hx] using ih h'

theorem goSplitAux_no_sep (sep : Char) (acc : List Char) {s : List Char} (h : sep ∉ s) :
    goSplitAux sep acc s = [acc.reverse ++ s] := by
  induction s generalizing acc with
  | nil => simp [goSplitAux]
  | cons c cs ih =>
    have hc : ¬(c = sep) := by rintro rfl; exact h (by simp)
    have h' : sep ∉ cs := fun hm => h (by simp [hm])
    simp [goSplitAux, hc, ih (c :: acc) h']

theorem goSplit_no_sep {sep : Char} {s : List Char} (h : sep ∉ s) : goSplit sep s = [s] := by
  simp [goSplit, goSplitAux_no_sep sep [] h]

/-- C8: a well-formed cluster-node line (at least 8 whitespace-separated
fields) parses to a node whose address is the address field truncated at
the first `'@'` and then at the first `','` (stripping any `@busport` and
`,hostname` suffix), and whose role is `"master"` exactly when the flags
field contains the substring `"master"`, else `"slave"`; the spec's sample
line parses to address `"127.0.0.1:30004"` and role `"slave"`. -/
theorem c8_parse_cluster_line :
    (∀ (line f0 f1 f2 : List Char) (fs : List (List Char)),
      '\n' ∉ line →
      trimSpace line = line →
      goFields line = f0 :: f1 :: f2 :: fs →
      8 ≤ (goFields line).length →
      parseClusterNodes line
        = [{ id := f0
             address := cutAt ',' (cutAt '@' f1)
             port := if (goSplit ':' (cutAt ',' (cutAt '@' f1))).length = 2
               then sscanfIntD ((goSplit ':' (cutAt ',' (cutAt '@' f1))).getD 1 [])
               else 0
             flags := f2
             role := if goContains f2 "master".toList then "master".toList
               else "slave".toList }]) ∧
    (∀ {pre : List Char} (post : List Char), '@' ∉ pre →
      cutAt '@' (pre ++ '@' :: post) = pre) ∧
    (∀ {pre : List Char} (post : List Char), ',' ∉ pre →
      cutAt ',' (pre ++ ',' :: post) = pre) ∧
    parseClusterNodes
        ("07c37dfeb235213a872192d90877d0cd55635b91 127.0.0.1:30004@31004 slave "
          ++ "e7d1eecce10fd6bb5eb35b9f99a514335d9ba9ca 0 1426238317239 4 connected").toList
      = [⟨"07c37dfeb235213a872192d90877d0cd55635b91".toList, "127.0.0.1:30004".toList,
          30004, "slave".toList, "slave".toList⟩] := by
  refine ⟨?_, fun post h => cutAt_append h post, fun post h => cutAt_append h post, by rfl⟩
  intro line f0 f1 f2 fs hlf htrim hfields h8
  have hne : line ≠ [] := by
    rintro rfl
    simp [goFields, goFieldsAux] at hfields
  rw [hfields] at h8
  unfold parseClusterNodes
  rw [htrim, goSplit_no_sep hlf]
  have hnode : parseNodeLine line
      = some { id := f0
               address := cutAt ',' (cutAt '@' f1)
               port := if (goSplit ':' (cutAt ',' (cutAt '@' f1))).length = 2
                 then sscanfIntD ((goSplit ':' (cutAt ',' (cutAt '@' f1))).getD 1 [])
                 else 0
               flags := f2
               role := if goContains f2 "master".toList then "master".toList
                 else "slave".toList } := by
    unfold parseNodeLine
    rw [htrim]
    rw [if_neg hne, hfields]
    rw [if_neg (by simp at h8 ⊢; omega)]
    rfl
  simp [List.filterMap_cons, hnode]

/-- The spec's sample `CLUSTER NODES` line. -/
def clusterLineSample : List Char :=
  ("07c37dfeb235213a872192d90877d0cd55635b91 127.0.0.1:30004@31004 slave "
    ++ "e7d1eecce10fd6bb5eb35b9f99a514335d9ba9ca 0 1426238317239 4 connected").toList

theorem c8_parse_cluster_line_witness :
    ('\n' ∉ clusterLineSample) ∧ trimSpace clusterLineSample = clusterLineSample ∧
    8 ≤ (goFields clusterLineSample).length ∧
    parseClusterNodes clusterLineSample
      = [⟨"07c37dfeb235213a872192d90877d0cd55635b91".toList, "127.0.0.1:30004".toList,
          30004, "slave".toList, "slave".toList⟩] := by
  refine ⟨by decide, by decide, by decide, ?_⟩
  exact c8_parse_cluster_line.1 clusterLineSample
    "07c37dfeb235213a872192d90877d0cd55635b91".toList
    "127.0.0.1:30004@31004".toList
    "slave".toList
    ["e7d1eecce10fd6bb5eb35b9f99a514335d9ba9ca".toList, "0".toList,
      "1426238317239".toList, "4".toList, "connected".toList]
    (by decide) (by decide) (by decide) (by decide)

/-- C2 counterexample: a single `conn.Read` can return more than the five
bytes `+OK\r\n` in one reply buffer; the code accepts any reply whose first
five bytes are `+OK\r\n`, so a reply that is not exactly `+OK\r\n` still
authenticates — the claimed "if and only if exactly `+OK\r\n`" is false. -/
theorem c2_auth_exact_counterexample :
    authReplyAccepted "+OK\r\nSPURIOUS".toList = true ∧
    "+OK\r\nSPURIOUS".toList ≠ "+OK\r\n".toList := by
  exact ⟨by rfl, by decide⟩

/-- C2 amended: password or IAM authentication succeeds if and only if the
single reply read from the remote has at least five bytes and its first
five bytes are `+OK\r\n` (a prefix check, not an exact match); any other
reply fails authentication and aborts the pipeline. -/
theorem c2_auth_prefix_amended (resp : List Char) :
    authReplyAccepted resp = true ↔ ∃ t, resp = "+OK\r\n".toList ++ t := by
  unfold authReplyAccepted
  simp only [Bool.and_eq_true, decide_eq_true_eq]
  constructor
  · rintro ⟨hlen, htake⟩
    refine ⟨resp.drop 5, ?_⟩
    rw [← htake]
    exact (List.take_append_drop 5 resp).symm
  · rintro ⟨t, rfl⟩
    constructor
    · simp
    · rw [show (5 : Nat) = ("+OK\r\n".toList).length from rfl, List.take_left]

theorem goLookup_mapSet_self (mp : List (List Char × List Char)) (k v : List Char) :
    goLookup (mapSet mp k v) k = some v := by
  induction mp with
  | nil => simp [mapSet, goLookup]
  | cons kv rest ih =>
    rcases kv with ⟨k', v'⟩
    by_cases hk : k' = k
    · simp [mapSet, hk, goLookup]
    · simp [mapSet, hk, goLookup, ih]

theorem goLookup_mapSet_ne (mp : List (List Char × List Char)) (k v key : List Char)
    (h : key ≠ k) : goLookup (mapSet mp k v) key = goLookup mp key := by
  induction mp with
  | nil => simp [mapSet, goLookup, Ne.symm h]
  | cons kv rest ih =>
    rcases kv with ⟨k', v'⟩
    by_cases hk : k' = k
    · subst hk
      simp [mapSet, goLookup, Ne.symm h]
    · simp [mapSet, hk, goLookup, ih]

theorem mem_mapSet {mp : List (List Char × List Char)} {k v : List Char}
    {kv : List Char × List Char} (h : kv ∈ mapSet mp k v) : kv ∈ mp ∨ kv = (k, v) := by
  induction mp with
  | nil => simpa [mapSet] using h
  | cons kv' rest ih =>
    rcases kv' with ⟨k', v'⟩
    by_cases hk : k' = k
    · simp only [mapSet, if_pos hk, List.mem_cons] at h
      rcases h with rfl | h
      · exact Or.inr rfl
      · exact Or.inl (by simp [h])
    · simp only [mapSet, if_neg hk, List.mem_cons] at h
      rcases h with rfl | h
      · exact Or.inl (by simp)
      · rcases ih h with h | rfl
        · exact Or.inl (by simp [h])
        · exact Or.inr rfl

theorem mem_keys_mapSet {mp : List (List Char × List Char)} {k v x : List Char}
    (h : x ∈ (mapSet mp k v).map Prod.fst) : x ∈ mp.map Prod.fst ∨ x = k := by
  simp only [List.mem_map] at h ⊢
  rcases h with ⟨kv, hkv, rfl⟩
  rcases mem_mapSet hkv with h | rfl
  · exact Or.inl ⟨kv, h, rfl⟩
  · exact Or.inr rfl

theorem keys_nodup_mapSet {mp : List (List Char × List Char)} (k v : List Char)
    (h : (mp.map Prod.fst).Nodup) : ((mapSet mp k v).map Prod.fst).Nodup := by
  induction mp with
  | nil => simp [mapSet]
  | cons kv rest ih =>
    rcases kv with ⟨k', v'⟩
    by_cases hk : k' = k
    · subst hk
      simpa [mapSet, List.nodup_cons] using h
    · simp only [mapSet, if_neg hk, List.map_cons, List.nodup_cons] at h ⊢
      obtain ⟨hnotin, hrest⟩ := h
      refine ⟨?_, ih hrest⟩
      intro hmem
      rcases mem_keys_mapSet hmem with hx | hkk
      · exact hnotin hx
      · exact hk hkk

/-- The C9 invariant: every started Proxy Instance has its `remote→local`
entry in the Node Address Map, every entry belongs to a started instance,
and the keys are pairwise distinct. -/
def nodeMapMatches (m : ManagerM) : Prop :=
  (∀ p ∈ m.proxies, ∃ l, goLookup m.nodeMap p.remoteAddr = some l) ∧
  (∀ kv ∈ m.nodeMap, ∃ p ∈ m.proxies, p.remoteAddr = kv.1) ∧
  (m.nodeMap.map Prod.fst).Nodup

theorem nodeMapMatches_addStart (m : ManagerM) (remoteAddr localAddr : List Char)
    (p : ProxyM) (hp : p.remoteAddr = remoteAddr) (h : nodeMapMatches m) :
    nodeMapMatches { m with nodeMap := mapSet m.nodeMap remoteAddr localAddr,
                            proxies := m.proxies ++ [p] } := by
  obtain ⟨h1, h2, h3⟩ := h
  refine ⟨?_, ?_, keys_nodup_mapSet _ _ h3⟩
  · intro q hq
    simp only [List.mem_append, List.mem_singleton] at hq
    rcases hq with hq | rfl
    · obtain ⟨l, hl⟩ := h1 q hq
      by_cases hkey : q.remoteAddr = remoteAddr
      · exact ⟨localAddr, by rw [hkey, goLookup_mapSet_self]⟩
      · exact ⟨l, by rw [goLookup_mapSet_ne _ _ _ _ hkey, hl]⟩
    · exact ⟨localAddr, by rw [hp, goLookup_mapSet_self]⟩
  · intro kv hkv
    rcases mem_mapSet hkv with hkv | rfl
    · obtain ⟨q, hq, hqa⟩ := h2 kv hkv
      exact ⟨q, by simp [hq], hqa⟩
    · exact ⟨p, by simp, hp⟩

theorem addProxy_preserves (m : ManagerM) (host : List Char) (port : Int)
    (localPort : Nat) (tokenOk startOk : Bool) (h : nodeMapMatches m) :
    nodeMapMatches (addProxy m host port localPort tokenOk startOk).1 := by
  unfold addProxy
  dsimp only
  by_cases hq : (m.authorizationMode = "IAM_AUTH".toList ∧ m.authPassword = [] ∧
      ¬ m.hasTokenSource = true) ∧ ¬ tokenOk = true
  · rw [if_pos hq]
    exact h
  · rw [if_neg hq]
    cases startOk with
    | false =>
      rw [if_neg (by simp)]
      split
      · exact h
      · exact h
    | true =>
      rw [if_pos rfl]
      split
      · exact nodeMapMatches_addStart { m with hasTokenSource := true } _ _ _ rfl h
      · exact nodeMapMatches_addStart m _ _ _ rfl h

theorem addLoop_preserves (nodes : List ClusterNode) :
    ∀ (m : ManagerM) (startPort : Nat) (oks : Nat → Bool × Bool) (i added : Nat),
      nodeMapMatches m → nodeMapMatches (addLoop m startPort oks nodes i added).1 := by
  induction nodes with
  | nil => intro m sp oks i added h; exact h
  | cons node rest ih =>
    intro m sp oks i added h
    have hp := addProxy_preserves m (extractHost node.address) node.port (sp + i)
      (oks i).1 (oks i).2 h
    rcases haddP : addProxy m (extractHost node.address) node.port (sp + i)
        (oks i).1 (oks i).2 with ⟨m', ok⟩
    rw [haddP] at hp
    cases ok with
    | true =>
      simp only [addLoop, haddP]
      exact ih m' sp oks (i + 1) (added + 1) hp
    | false =>
      simp only [addLoop, haddP]
      exact ih m' sp oks (i + 1) added hp

theorem discover_preserves (m : ManagerM) (remoteAddr : List Char) (startPort : Nat)
    (raw : List Char) (oks : Nat → Bool × Bool) (h : nodeMapMatches m) :
    nodeMapMatches (discoverAndAdd m remoteAddr startPort raw oks).1 := by
  unfold discoverAndAdd
  rcases hD : DiscoverClusterTopology raw with _ | nodes
  · simp only [hD]
    exact h
  · simp only [hD]
    try dsimp only
    by_cases h0 : nodes.length = 0
    · rw [if_pos h0]
      exact h
    · rw [if_neg h0]
      by_cases h1 : (FilterUniqueNodes nodes remoteAddr).length = 0
      · rw [if_pos h1]
        exact h
      · rw [if_neg h1]
        rcases hLoop : addLoop { m with isClusterMode := true } startPort oks
            (FilterUniqueNodes nodes remoteAddr) 0 0 with ⟨m2, added⟩
        simp only [hLoop]
        have hx := addLoop_preserves (FilterUniqueNodes nodes remoteAddr)
          { m with isClusterMode := true } startPort oks 0 0 h
        rw [hLoop] at hx
        exact hx

/-- C9: in every reachable Manager state the Node Address Map holds a
`remote→local` entry for each Proxy Instance that successfully started
listening, holds no entry that does not belong to such an instance, and its
keys are pairwise distinct; and a failed `Start` inside `AddProxy` adds
neither a map entry nor an instance (and reports the error). -/
theorem c9_nodemap_per_started_proxy :
    (∀ m : ManagerM, Reachable m → nodeMapMatches m) ∧
    (∀ (m : ManagerM) (host : List Char) (port : Int) (localPort : Nat) (tokenOk : Bool),
      (addProxy m host port localPort tokenOk false).1.nodeMap = m.nodeMap ∧
      (addProxy m host port localPort tokenOk false).1.proxies = m.proxies ∧
      (addProxy m host port localPort tokenOk false).2 = false) := by
  constructor
  · intro m hr
    induction hr with
    | new cfg =>
      refine ⟨?_, ?_, ?_⟩ <;> simp [newManager]
    | setAuthPassword pw _ ih => exact ih
    | setAuthorizationMode mode _ ih => exact ih
    | addProxy host port localPort tokenOk startOk _ ih =>
      exact addProxy_preserves _ host port localPort tokenOk startOk ih
    | discover remoteAddr startPort raw oks _ ih =>
      exact discover_preserves _ remoteAddr startPort raw oks ih
  · intro m host port localPort tokenOk
    unfold addProxy
    dsimp only
    by_cases hq : (m.authorizationMode = "IAM_AUTH".toList ∧ m.authPassword = [] ∧
        ¬ m.hasTokenSource = true) ∧ ¬ tokenOk = true
    · rw [if_pos hq]
      exact ⟨rfl, rfl, rfl⟩
    · rw [if_neg hq]
      rw [if_neg (by simp)]
      refine ⟨?_, ?_, rfl⟩
      · split <;> rfl
      · split <;> rfl

/-- A concrete reachable two-proxy manager for the C9 witness. -/
def managerSample : ManagerM :=
  (addProxy (addProxy (newManager "127.0.0.1".toList) "10.0.0.1".toList 6379 6379
      true true).1 "10.0.0.2".toList 6379 6380 true true).1

theorem c9_nodemap_per_started_proxy_witness :
    nodeMapMatches managerSample ∧
    ((addProxy managerSample "10.0.0.3".toList 6379 6381 true false).1.nodeMap
        = managerSample.nodeMap ∧
      (addProxy managerSample "10.0.0.3".toList 6379 6381 true false).1.proxies
        = managerSample.proxies ∧
      (addProxy managerSample "10.0.0.3".toList 6379 6381 true false).2 = false) :=
  ⟨c9_nodemap_per_started_proxy.1 managerSample
      (Reachable.addProxy "10.0.0.2".toList 6379 6380 true true
        (Reachable.addProxy "10.0.0.1".toList 6379 6379 true true
          (Reachable.new "127.0.0.1".toList))),
    c9_nodemap_per_started_proxy.2 managerSample "10.0.0.3".toList 6379 6381 true⟩

theorem rewriteRedirect_success (v : RESPValue) (nodeMap : List (List Char × List Char))
    (kw slot target localAddr : List Char)
    (hred : v.IsRedirectError = true) (hfields : goFields v.str = [kw, slot, target])
    (hlook : goLookup nodeMap target = some localAddr) :
    v.RewriteRedirectError nodeMap
      = (true, v.setStr (kw ++ ' ' :: slot ++ ' ' :: localAddr)) := by
  unfold RESPValue.RewriteRedirectError
  rw [if_neg (by simp [hred])]
  rw [hfields]
  simp [hlook]

theorem addProxy_shape (m : ManagerM) (host : List Char) (port : Int)
    (localPort : Nat) (tokenOk startOk : Bool) :
    (addProxy m host port localPort tokenOk startOk).1.isClusterMode = m.isClusterMode ∧
    ∃ ps : List ProxyM,
      (addProxy m host port localPort tokenOk startOk).1.proxies = m.proxies ++ ps ∧
      ∀ p ∈ ps, p.isClusterMode = m.isClusterMode := by
  unfold addProxy
  dsimp only
  by_cases hq : (m.authorizationMode = "IAM_AUTH".toList ∧ m.authPassword = [] ∧
      ¬ m.hasTokenSource = true) ∧ ¬ tokenOk = true
  · rw [if_pos hq]
    exact ⟨rfl, [], by simp, by simp⟩
  · rw [if_neg hq]
    cases startOk with
    | false =>
      rw [if_neg (by simp)]
      refine ⟨?_, [], ?_, by simp⟩
      · split <;> rfl
      · split <;> simp
    | true =>
      rw [if_pos rfl]
      split
      · refine ⟨rfl, _, rfl, ?_⟩
        intro q hq'
        simp only [List.mem_singleton] at hq'
        subst hq'
        rfl
      · refine ⟨rfl, _, rfl, ?_⟩
        intro q hq'
        simp only [List.mem_singleton] at hq'
        subst hq'
        rfl

theorem addLoop_shape (nodes : List ClusterNode) :
    ∀ (m : ManagerM) (sp : Nat) (oks : Nat → Bool × Bool) (i added : Nat),
      (addLoop m sp oks nodes i added).1.isClusterMode = m.isClusterMode ∧
      ∃ ps : List ProxyM,
        (addLoop m sp oks nodes i added).1.proxies = m.proxies ++ ps ∧
        ∀ p ∈ ps, p.isClusterMode = m.isClusterMode := by
  induction nodes with
  | nil =>
    intro m sp oks i added
    exact ⟨rfl, [], by simp [addLoop], by simp⟩
  | cons node rest ih =>
    intro m sp oks i added
    obtain ⟨hcl, ps1, hps1, hcls1⟩ := addProxy_shape m (extractHost node.address) node.port
      (sp + i) (oks i).1 (oks i).2
    rcases haddP : addProxy m (extractHost node.address) node.port (sp + i)
        (oks i).1 (oks i).2 with ⟨m', ok⟩
    rw [haddP] at hcl hps1
    have hcl' : m'.isClusterMode = m.isClusterMode := hcl
    have hps1' : m'.proxies = m.proxies ++ ps1 := hps1
    cases ok with
    | true =>
      simp only [addLoop, haddP]
      rw [if_pos trivial]
      obtain ⟨hcl2, ps2, hps2, hcls2⟩ := ih m' sp oks (i + 1) (added + 1)
      refine ⟨by rw [hcl2, hcl'], ps1 ++ ps2, ?_, ?_⟩
      · rw [hps2, hps1', List.append_assoc]
      · intro q hq
        rcases List.mem_append.mp hq with hq | hq
        · exact hcls1 q hq
        · rw [hcls2 q hq, hcl']
    | false =>
      simp only [addLoop, haddP]
      rw [if_neg (by simp)]
      obtain ⟨hcl2, ps2, hps2, hcls2⟩ := ih m' sp oks (i + 1) added
      refine ⟨by rw [hcl2, hcl'], ps1 ++ ps2, ?_, ?_⟩
      · rw [hps2, hps1', List.append_assoc]
      · intro q hq
        rcases List.mem_append.mp hq with hq | hq
        · exact hcls1 q hq
        · rw [hcls2 q hq, hcl']

theorem proxyLoop_nil (nodeMap : List (List Char × List Char)) :
    ∀ fuel, proxyLoop nodeMap fuel [] = [] := by
  intro fuel
  cases fuel with
  | zero => rfl
  | succ f => rfl

theorem proxyLoop_step (nodeMap : List (List Char × List Char)) (fuel : Nat)
    (input : List Char) (v : RESPValue) (rest : List Char)
    (h : ReadValue input = some (v, rest)) :
    proxyLoop nodeMap (fuel + 1) input
      = (processValue nodeMap v).Serialize ++ proxyLoop nodeMap fuel rest := by
  simp only [proxyLoop, h]

/-- C1 amended: after `DiscoverAndAddClusterNodes` succeeds having added at
least one peer, the manager's cluster flag is set and every Proxy Instance
added by the discovery call has `isClusterMode = true` and relays the
remote→client direction RESP-aware, rewriting a `MOVED` reply whose target
is a key of the Node Address Map to the mapped local listener address;
but each instance added before discovery (such as the primary) keeps the
`isClusterMode` value copied at its construction — `false` — and relays
the remote→client bytes verbatim, with no redirect rewriting. -/
theorem c1_cluster_relay_amended :
    (∀ (m : ManagerM) (remoteAddr : List Char) (startPort : Nat) (raw : List Char)
        (oks : Nat → Bool × Bool) (m' : ManagerM) (n : Nat),
      discoverAndAdd m remoteAddr startPort raw oks = (m', some n) → 1 ≤ n →
      m'.isClusterMode = true ∧
      m'.proxies.take m.proxies.length = m.proxies ∧
      ∀ p ∈ m'.proxies.drop m.proxies.length, p.isClusterMode = true) ∧
    (∀ (p : ProxyM) (nodeMap : List (List Char × List Char)) (input : List Char),
      p.isClusterMode = false → relayRemoteToClient p nodeMap input = input) ∧
    (∀ (p : ProxyM) (nodeMap : List (List Char × List Char))
        (slot target localAddr : List Char),
      p.isClusterMode = true → '\n' ∉ slot → '\n' ∉ target →
      goFields ("MOVED ".toList ++ slot ++ ' ' :: target)
        = ["MOVED".toList, slot, target] →
      goLookup nodeMap target = some localAddr →
      relayRemoteToClient p nodeMap
          ('-' :: (("MOVED ".toList ++ slot ++ ' ' :: target) ++ ['\r', '\n']))
        = '-' :: (("MOVED ".toList ++ slot ++ ' ' :: localAddr) ++ ['\r', '\n'])) := by
  refine ⟨?_, ?_, ?_⟩
  · intro m remoteAddr startPort raw oks m' n heq hn
    unfold discoverAndAdd at heq
    rcases hD : DiscoverClusterTopology raw with _ | nodes
    · simp only [hD] at heq
      injection heq with h1 h2
      exact Option.noConfusion h2
    · simp only [hD] at heq
      try dsimp only at heq
      by_cases h0 : nodes.length = 0
      · rw [if_pos h0] at heq
        injection heq with h1 h2
        exact Option.noConfusion h2
      · rw [if_neg h0] at heq
        by_cases h1 : (FilterUniqueNodes nodes remoteAddr).length = 0
        · rw [if_pos h1] at heq
          injection heq with ha hb
          injection hb with hb'
          omega
        · rw [if_neg h1] at heq
          rcases hLoop : addLoop { m with isClusterMode := true } startPort oks
              (FilterUniqueNodes nodes remoteAddr) 0 0 with ⟨m2, added⟩
          simp only [hLoop] at heq
          obtain ⟨hcl2, ps, hps, hcls⟩ := addLoop_shape (FilterUniqueNodes nodes remoteAddr)
            { m with isClusterMode := true } startPort oks 0 0
          rw [hLoop] at hcl2 hps
          injection heq with hm' hn'
          subst hm'
          have hps' : m2.proxies = m.proxies ++ ps := hps
          refine ⟨hcl2, ?_, ?_⟩
          · rw [hps', List.take_left]
          · rw [hps', List.drop_left]
            intro q hq
            exact hcls q hq
  · intro p nodeMap input hp
    unfold relayRemoteToClient
    rw [hp]
    rw [if_neg (by simp)]
  · intro p nodeMap slot target localAddr hcl hns hnt hgf hlook
    have hnp : ('\n' : Char) ∉ "MOVED ".toList ++ (slot ++ ' ' :: target) := by
      intro hm
      rcases List.mem_append.mp hm with hm | hm
      · revert hm; decide
      · rcases List.mem_append.mp hm with hm | hm
        · exact hns hm
        · rcases List.mem_cons.mp hm with hm | hm
          · exact absurd hm (by decide)
          · exact hnt hm
    unfold relayRemoteToClient
    rw [hcl, if_pos rfl]
    unfold proxyServerResponses
    have hread : ReadValue
        ('-' :: (("MOVED ".toList ++ slot ++ ' ' :: target) ++ ['\r', '\n']))
        = some (.mk .error ("MOVED ".toList ++ slot ++ ' ' :: target) 0 [] false, []) := by
      unfold ReadValue
      rw [show ('-' :: (("MOVED ".toList ++ slot ++ ' ' :: target) ++ ['\r', '\n'])).length + 1
          = (("MOVED ".toList ++ slot ++ ' ' :: target) ++ ['\r', '\n']).length + 1 + 1
          from by simp]
      rw [readValue_succ, readValueStep_minus]
      exact readError_append hnp []
    rw [proxyLoop_step nodeMap _ _ _ _ hread]
    rw [proxyLoop_nil]
    have hred : (RESPValue.mk .error ("MOVED ".toList ++ slot ++ ' ' :: target)
        0 [] false).IsRedirectError = true := by
      have hpre : goHasPre ("MOVED ".toList ++ slot ++ ' ' :: target) "MOVED ".toList
          = true := (goHasPre_iff _ _).mpr ⟨slot ++ ' ' :: target, rfl⟩
      simp [RESPValue.IsRedirectError, RESPValue.ty, RESPValue.str]
      exact Or.inl (by simpa using hpre)
    have hrw := rewriteRedirect_success
      (RESPValue.mk .error ("MOVED ".toList ++ slot ++ ' ' :: target) 0 [] false) nodeMap
      "MOVED".toList slot target localAddr hred hgf hlook
    unfold processValue
    rw [hred, if_pos rfl, hrw]
    simp [RESPValue.setStr, RESPValue.Serialize]

/-- The primary-only manager before discovery (local `127.0.0.1:6379` →
remote `10.0.0.1:6379`). -/
def managerC1pre : ManagerM :=
  (addProxy (newManager "127.0.0.1".toList) "10.0.0.1".toList 6379 6379 true true).1

/-- A two-node `CLUSTER NODES` payload: the primary (`myself,master`) and
one peer at `10.0.0.2:6379`. -/
def clusterPayloadC1 : List Char :=
  ("id111 10.0.0.1:6379@16379 myself,master - 0 0 1 connected 0-8191\n"
    ++ "id222 10.0.0.2:6379@16379 master - 0 0 2 connected 8192-16383").toList

/-- The RESP bulk-string reply carrying that payload. -/
def rawClusterReplyC1 : List Char :=
  '$' :: (formatNat clusterPayloadC1.length ++ '\r' :: '\n'
    :: (clusterPayloadC1 ++ ['\r', '\n']))

/-- The manager after a successful discovery that added one peer proxy. -/
def managerC1 : ManagerM :=
  (discoverAndAdd managerC1pre "10.0.0.1:6379".toList 6380 rawClusterReplyC1
    (fun _ => (true, true))).1

set_option maxRecDepth 40000 in
/-- C1 counterexample: the discovery succeeded with one peer added
(result `some 1`), the Node Address Map maps `10.0.0.2:6379` to the second
local listener `127.0.0.1:6380`, yet the primary Proxy Instance — owned by
the Manager and added before discovery — still has `isClusterMode = false`
and relays `-MOVED 3999 10.0.0.2:6379\r\n` to the client unrewritten,
not as the `-MOVED 3999 127.0.0.1:6380\r\n` the claim requires of every
owned instance. -/
theorem c1_cluster_relay_counterexample :
    (discoverAndAdd managerC1pre "10.0.0.1:6379".toList 6380 rawClusterReplyC1
        (fun _ => (true, true))).2 = some 1 ∧
    goLookup managerC1.nodeMap "10.0.0.2:6379".toList = some "127.0.0.1:6380".toList ∧
    (managerC1.proxies.getD 0 default).localAddr = "127.0.0.1:6379".toList ∧
    (managerC1.proxies.getD 0 default).isClusterMode = false ∧
    relayRemoteToClient (managerC1.proxies.getD 0 default) managerC1.nodeMap
        "-MOVED 3999 10.0.0.2:6379\r\n".toList
      = "-MOVED 3999 10.0.0.2:6379\r\n".toList ∧
    "-MOVED 3999 10.0.0.2:6379\r\n".toList ≠ "-MOVED 3999 127.0.0.1:6380\r\n".toList :=
  ⟨by decide, by decide, by decide, by decide, by decide, by decide⟩

set_option maxRecDepth 40000 in
theorem c1_cluster_relay_amended_witness :
    (discoverAndAdd managerC1pre "10.0.0.1:6379".toList 6380 rawClusterReplyC1
        (fun _ => (true, true)) = (managerC1, some 1)) ∧
    (managerC1.isClusterMode = true ∧
      managerC1.proxies.take managerC1pre.proxies.length = managerC1pre.proxies ∧
      ∀ p ∈ managerC1.proxies.drop managerC1pre.proxies.length, p.isClusterMode = true) ∧
    ((managerC1.proxies.getD 0 default).isClusterMode = false ∧
      relayRemoteToClient (managerC1.proxies.getD 0 default) managerC1.nodeMap
        "+PONG\r\n".toList = "+PONG\r\n".toList) ∧
    ((managerC1.proxies.getD 1 default).isClusterMode = true ∧
      relayRemoteToClient (managerC1.proxies.getD 1 default) managerC1.nodeMap
          ('-' :: (("MOVED ".toList ++ "3999".toList ++ ' ' :: "10.0.0.2:6379".toList)
            ++ ['\r', '\n']))
        = '-' :: (("MOVED ".toList ++ "3999".toList ++ ' ' :: "127.0.0.1:6380".toList)
            ++ ['\r', '\n'])) := by
  refine ⟨by rfl, ?_, ⟨by decide, ?_⟩, ⟨by decide, ?_⟩⟩
  · exact c1_cluster_relay_amended.1 managerC1pre "10.0.0.1:6379".toList 6380
      rawClusterReplyC1 (fun _ => (true, true)) managerC1 1 (by rfl) (by omega)
  · exact c1_cluster_relay_amended.2.1 (managerC1.proxies.getD 0 default)
      managerC1.nodeMap "+PONG\r\n".toList (by decide)
  · exact c1_cluster_relay_amended.2.2 (managerC1.proxies.getD 1 default)
      managerC1.nodeMap "3999".toList "10.0.0.2:6379".toList "127.0.0.1:6380".toList
      (by decide) (by decide) (by decide) (by decide) (by decide)
